import Mathlib

/-!
Verification of the tspider concurrent aggregation engine
(`common/common.go`, `cmd/tspider/main.go`, `ktorrent/torrenttop.go`)
against its natural-language specification.

The Go code is shallowly embedded: pure computations become Lean
functions; the concurrent fan-out stages become functions over an
explicit completion order (the order in which worker goroutines deliver
into the result channel), quantified over all orders consistent with the
program; panics and out-of-bounds accesses become `Option`/`Except`
results.
-/

namespace TSpider

/-- Counters of the progress spinner (`Spinner` in common.go): total task
count, completed task count, current message.  The Go fields are `int32`
resp. a string; counts here never approach `2^31` so overflow is not
modelled.  The tick animation and terminal output are irrelevant to the
claims and are not carried in this state. -/
structure Spin where
  total : Int
  done : Int
  message : String
deriving Repr, DecidableEq

/-- A fresh spinner as produced by `NewSpinner` (counters zero). -/
def spin0 : Spin := { total := 0, done := 0, message := "Checking sites" }

/-- Embedding of `Spinner.IncrDone`: atomically increment the done counter. -/
def incrDone (sp : Spin) : Spin := { sp with done := sp.done + 1 }

/-- The key normalisation applied by `CollectData`/`CollectDataEx`:
`strings.Replace(k, " ", "_", -1)` replaces every space character by an
underscore (each space separately; other characters, including other
whitespace, are kept). -/
def underscoreSpace (c : Char) : Char := if c = ' ' then '_' else c

/-- Embedding of `strings.Replace(k, " ", "_", -1)` on a whole string. -/
def normalizeKey (k : String) : String := ⟨k.data.map underscoreSpace⟩

/-- The sentinel value emitted by the simple-tier source
(`TorrentTop.GetMagnet` in torrenttop.go) when no magnet link is found,
and filtered by `CollectData`. -/
def noMagnetSentinel : String := "no magnet"

/-- Embedding of `strings.HasPrefix` on character lists (Go compares byte sequences;
the hrefs involved are ASCII, where bytes and characters coincide). -/
def leadsWith : List Char → List Char → Bool
  | [], _ => true
  | _ :: _, [] => false
  | c :: p, d :: s => c = d && leadsWith p s

/-- Embedding of `strings.HasPrefix(href, "magnet:?")`. -/
def isMagnetHref (h : String) : Bool := leadsWith "magnet:?".data h.data

/-- Outcome of the page fetch performed by `TorrentTop.GetMagnet`:
either the fetch fails, the HTML parse fails, or a page is obtained
whose magnet-icon elements each carry a list of anchor hrefs (in
document order, one list per `i.fas.fa-magnet` element). -/
inductive FetchOutcome where
  | fetchFailed
  | parseFailed (e : String)
  | page (anchors : List (List String))
deriving Repr, DecidableEq

/-- Embedding of `TorrentTop.GetMagnet`: on fetch failure returns a fixed failure
string; on parse failure a parse-error string; otherwise scans every
magnet-icon element, taking the first `magnet:?`-prefixed href of each
and letting later icons overwrite earlier ones, and returns the sentinel
`"no magnet"` when no icon yielded a magnet href. -/
def getMagnet (o : FetchOutcome) : String :=
  match o with
  | .fetchFailed => "failed to fetch magnet"
  | .parseFailed e => "parse error: " ++ e
  | .page anchors =>
    let magnet := anchors.foldl
      (fun acc iconAnchors =>
        match iconAnchors.find? (fun h => isMagnetHref h) with
        | some h => h
        | none => acc) ""
    if magnet = "" then noMagnetSentinel else magnet

/-- The simple-tier aggregate (`map[string]string`), modelled by its
lookup function. -/
abbrev Agg := String → Option String

/-- The extended-tier aggregate (`map[string][]string`). -/
abbrev AggEx := String → Option (List String)

/-- One iteration of the merge loop body of `CollectData`:
`k = strings.Replace(k, " ", "_", -1); if v == "no magnet" { continue };
m[k] = v`. -/
def insertSimple (m : Agg) (kv : String × String) : Agg :=
  fun q =>
    if kv.2 = noMagnetSentinel then m q
    else if q = normalizeKey kv.1 then some kv.2 else m q

/-- The full merge of `CollectData`: fold the delivered result maps (in
channel-arrival order; each map flattened to its iteration order) into
an initially empty aggregate. -/
def mergeSimple (ms : List (List (String × String))) : Agg :=
  ms.foldl (fun m elem => elem.foldl insertSimple m) (fun _ => none)

/-- One iteration of the merge loop body of `CollectDataEx` (same key
normalisation, no sentinel filter). -/
def insertEx (m : AggEx) (kv : String × List String) : AggEx :=
  fun q => if q = normalizeKey kv.1 then some kv.2 else m q

/-- The full merge of `CollectDataEx`. -/
def mergeEx (ms : List (List (String × List String))) : AggEx :=
  ms.foldl (fun m elem => elem.foldl insertEx m) (fun _ => none)

/-- The opening of the dispatch stage in `CollectData`/`CollectDataEx`:
`spinner.UpdateMessage("Searching"); spinner.SetTotal(len(s));
atomic.StoreInt32(&spinner.done, 0)`. -/
def dispatchInit (sp : Spin) (n : Nat) : Spin :=
  { sp with message := "Searching", total := (n : Int), done := 0 }

/-- Embedding of `CollectData`.  Here `results` lists, in channel-arrival order, each
worker goroutine's `Crawl` outcome: `none` for a nil map (failed crawl),
`some kvs` for a delivered map with iteration order `kvs`.  Every worker
increments the done counter exactly once (`IncrDone` runs before the nil
check); only non-nil results reach the channel (`filterMap id`); the
merge runs after the `wg.Wait()` barrier, i.e. after every increment. -/
def collectData (results : List (Option (List (String × String)))) (sp : Spin) :
    Agg × Spin :=
  let sp1 := dispatchInit sp results.length
  let sp2 := results.foldl (fun s _ => incrDone s) sp1
  (mergeSimple (results.filterMap id), sp2)

/-- Embedding of `CollectDataEx`, same structure as `CollectData` for the
extended-tier sources (no sentinel filter in the merge). -/
def collectDataEx (results : List (Option (List (String × List String)))) (sp : Spin) :
    AggEx × Spin :=
  let sp1 := dispatchInit sp results.length
  let sp2 := results.foldl (fun s _ => incrDone s) sp1
  (mergeEx (results.filterMap id), sp2)

/-! ## Source gate (`GetAvailableSites` / `GetAvailableSitesEx`) -/

/-- The fixed internal name list probed by `GetAvailableSites`
(`items := []string{"torrenttop"}`). -/
def gateNames : List String := ["torrenttop"]

/-- The fixed internal name list probed by `GetAvailableSitesEx`
(`items := []string{"nyaa", "sukebe"}`). -/
def gateNamesEx : List String := ["nyaa", "sukebe"]

/-- The set of positions whose reachability probe succeeded: position
`i` of `names` is sent into the index channel iff
`CheckNetWorkFromURL(TorrentURL[names[i]])` returned true, here
abstracted as `reach names[i]`. -/
def survivors (names : List String) (reach : String → Bool) : List Nat :=
  (List.range names.length).filter (fun i => reach (names.getD i ""))

/-- The projection loop
`for v := range ch { newItems = append(newItems, oldItems[v]) }`:
indices are consumed in channel-arrival order and `oldItems[v]` is
appended for each; `none` models the index-out-of-range panic when some
`v` is not a valid index of `oldItems`. -/
def projectIdx {α : Type} (old : List α) : List Nat → Option (List α)
  | [] => some []
  | i :: rest =>
    match old[i]? with
    | none => none
    | some a =>
      match projectIdx old rest with
      | none => none
      | some l => some (a :: l)

/-- The spinner state handed back by a gate: `NewSpinner("Checking
sites")` with `SetTotal(len(oldItems))`, and one `IncrDone` per probed
internal name (all probes finish before `wg.Wait()` returns). -/
def gateSpin (nOld nProbes : Nat) : Spin :=
  { total := (nOld : Int), done := (nProbes : Int), message := "Checking sites" }

/-- Embedding of `GetAvailableSites`: probes `gateNames` and projects the caller's
handle list by the indices delivered on the channel.  `arrival` is the
channel content in arrival order; the function is quantified over it in
the theorems, constrained to be a permutation of
`survivors gateNames reach`. -/
def getAvailableSites {α : Type} (old : List α) (arrival : List Nat) :
    Option (List α) × Spin :=
  (projectIdx old arrival, gateSpin old.length gateNames.length)

/-- Embedding of `GetAvailableSitesEx`: same as `getAvailableSites` over
`gateNamesEx`. -/
def getAvailableSitesEx {α : Type} (old : List α) (arrival : List Nat) :
    Option (List α) × Spin :=
  (projectIdx old arrival, gateSpin old.length gateNamesEx.length)

/-! ## Search run (`doSearch` in cmd/tspider/main.go) -/

/-- Outcome of one search run branch in `doSearch`:
either the explicit no-available-sites report (the code stops the
spinner, prints a "No available sites" notice and returns without
querying), or a dispatched search with its aggregate and the
"from M site(s)" count. -/
inductive SearchReport (γ : Type) where
  | noAvailableSites
  | found (data : γ) (siteCount : Nat)

/-- The post-gate stage of `doSearch` (either language branch): with the
gate's surviving handle list `gated`, if `len(sites) == 0` report
no-available-sites and return, otherwise invoke the dispatcher on
`gated` and report its aggregate together with `len(sites)`. -/
def searchStage {σ γ : Type} (gated : List σ) (dispatch : List σ → γ) :
    SearchReport γ :=
  if gated.length = 0 then .noAvailableSites
  else .found (dispatch gated) gated.length

/-! ## Availability prober (`Doctor`) -/

/-- Per-site configuration (`SiteConfig` in common.go). -/
structure SiteConfig where
  url : String
  enabled : Bool
  language : String
deriving Repr, DecidableEq

/-- Health status of one site (`SiteStatus` in common.go). -/
structure SiteStatus where
  name : String
  url : String
  available : Bool
  latency : Int
  errMsg : String
  language : String
  enabled : Bool
deriving Repr, DecidableEq

/-- Outcome of one probe goroutine's HTTP interaction in `Doctor`:
either `http.NewRequest` itself failed (no check issued, no latency
measured), or `client.Do` ran and took `latency`, returning either a
transport/timeout error or a status code. -/
inductive ProbeOutcome where
  | reqError (msg : String)
  | checked (err : Option String) (statusCode : Nat) (latency : Int)
deriving Repr, DecidableEq

/-- Body of one probe goroutine in `Doctor`: builds the `SiteStatus`
exactly as the code does (zero-valued `Available`/`Latency`/`Error`
fields, then filled according to the outcome; `Available` only on
status 200). -/
def probeSite (n : String) (s : SiteConfig) (o : ProbeOutcome) : SiteStatus :=
  let base : SiteStatus :=
    { name := n, url := s.url, available := false, latency := 0,
      errMsg := "", language := s.language, enabled := s.enabled }
  match o with
  | .reqError m => { base with errMsg := m }
  | .checked err code lat =>
    match err with
    | some m => { base with latency := lat, errMsg := m }
    | none =>
      if code = 200 then { base with latency := lat, available := true }
      else { base with latency := lat, errMsg := "HTTP " ++ toString code }

/-- The language filter of `Doctor`'s loop: a site is examined unless
`language != "" && site.Language != language`. -/
def matchesLang (language : String) (s : SiteConfig) : Bool :=
  language = "" || s.language = language

/-- The goroutine-spawning loop of `Doctor` over the configured sites:
skips non-matching languages (`continue`), otherwise produces exactly
one `SiteStatus` per site via `probeSite`.  The real code collects each
status under a mutex in completion order, so the returned collection is
unordered; the claims only concern its content, which this sequential
model produces in configuration order. -/
def doctorLoop (sites : List (String × SiteConfig)) (language : String)
    (outcome : String → ProbeOutcome) : List SiteStatus :=
  match sites with
  | [] => []
  | (n, s) :: rest =>
    if language ≠ "" ∧ s.language ≠ language then doctorLoop rest language outcome
    else probeSite n s (outcome n) :: doctorLoop rest language outcome

/-! ## Spinner rendering and stop -/

/-- The status line composed by `Spinner.render`, keeping the fields the
claims talk about; the three constructors are the three format branches
of the code (`total > 0 && done > 0`, `total > 0`, otherwise). -/
inductive StatusLine where
  | withETA (frame msg : String) (done total : Int) (elapsed : Nat) (eta : Int)
  | withTotal (frame msg : String) (total : Int) (elapsed : Nat)
  | bare (frame msg : String) (elapsed : Nat)
deriving Repr, DecidableEq

/-- Embedding of `Spinner.render`: with elapsed time (non-negative by construction,
`time.Since(start)`), show the ETA `time.Duration(total-done) *
(elapsed / time.Duration(done))` only when `total > 0 && done > 0`.
The division is Go integer division; on the non-negative operands that
reach this branch it agrees with Lean's `Int` division used here. -/
def render (frame msg : String) (total done : Int) (elapsed : Nat) : StatusLine :=
  if 0 < total ∧ 0 < done then
    let avgTime := (elapsed : Int) / done
    let remaining := (total - done) * avgTime
    .withETA frame msg done total elapsed remaining
  else if 0 < total then
    .withTotal frame msg total elapsed
  else
    .bare frame msg elapsed

/-- The ETA shown by a rendered status line, if any. -/
def etaOf : StatusLine → Option Int
  | .withETA _ _ _ _ _ eta => some eta
  | _ => none

/-- The two stop entry points of the spinner (`Stop` and
`StopWithMessage`); both begin with `close(s.stop)` on the same
channel. -/
inductive StopOp where
  | plain
  | withMessage
deriving Repr, DecidableEq

/-- Embedding of `close(s.stop)` on the stop channel: Go panics when closing an
already-closed channel.  The state is whether the channel has been
closed; the error value models the runtime panic. -/
def closeStop (closed : Bool) : Except String Bool :=
  if closed then Except.error "close of closed channel" else Except.ok true

/-- One invocation of `Stop` or `StopWithMessage`: both close the stop
channel first (the subsequent `<-s.stopped` wait and terminal output do
not touch the stop channel). -/
def runStop (op : StopOp) (closed : Bool) : Except String Bool :=
  match op with
  | .plain => closeStop closed
  | .withMessage => closeStop closed

/-- A sequence of stop invocations on one spinner, threading the
stop-channel state; the first panic aborts the rest. -/
def runStops : List StopOp → Bool → Except String Bool
  | [], closed => Except.ok closed
  | op :: rest, closed =>
    match runStop op closed with
    | Except.error e => Except.error e
    | Except.ok c => runStops rest c

/-! ## Helper lemmas -/

/-- Folding `IncrDone` once per list element adds the list's length to
the done counter and changes nothing else. -/
theorem foldl_incrDone {β : Type} :
    ∀ (l : List β) (s : Spin),
      l.foldl (fun a _ => incrDone a) s = { s with done := s.done + (l.length : Int) } := by
  intro l
  induction l with
  | nil => intro s; cases s; simp
  | cons x xs ih =>
    intro s
    rw [List.foldl_cons, ih]
    cases s with
    | mk t d m =>
      simp only [incrDone, List.length_cons, Spin.mk.injEq, true_and, and_true]
      omega

/-- A predicate preserved by each fold step holds of the fold result. -/
theorem foldl_inv {A B : Type} (f : A → B → A) (P : A → Prop)
    (step : ∀ a b, P a → P (f a b)) :
    ∀ (l : List B) (a : A), P a → P (l.foldl f a) := by
  intro l
  induction l with
  | nil => intro a ha; simpa using ha
  | cons b rest ih => intro a ha; simpa using ih (f a b) (step a b ha)

/-- The space-replacement function never outputs a space. -/
theorem underscoreSpace_ne_space (c : Char) : underscoreSpace c ≠ ' ' := by
  unfold underscoreSpace
  split_ifs with h
  · decide
  · exact h

/-- Normalised keys contain no space character. -/
theorem normalizeKey_no_space (k : String) : ' ' ∉ (normalizeKey k).data := by
  intro hmem
  have : ' ' ∈ k.data.map underscoreSpace := by simpa [normalizeKey] using hmem
  rcases List.mem_map.mp this with ⟨c, _, hc⟩
  exact underscoreSpace_ne_space c hc

/-- The step `insertSimple` preserves the invariant that no stored value is the
sentinel. -/
theorem insertSimple_no_sentinel (m : Agg) (kv : String × String)
    (h : ∀ q v, m q = some v → v ≠ noMagnetSentinel) :
    ∀ q v, insertSimple m kv q = some v → v ≠ noMagnetSentinel := by
  intro q v hq
  simp only [insertSimple] at hq
  split_ifs at hq with h1 h2
  · exact h q v hq
  · rw [Option.some_inj] at hq
    subst hq
    exact h1
  · exact h q v hq

/-- The step `insertSimple` preserves the invariant that stored keys contain no
space. -/
theorem insertSimple_no_space (m : Agg) (kv : String × String)
    (h : ∀ q v, m q = some v → ' ' ∉ q.data) :
    ∀ q v, insertSimple m kv q = some v → ' ' ∉ q.data := by
  intro q v hq
  simp only [insertSimple] at hq
  split_ifs at hq with h1 h2
  · exact h q v hq
  · rw [h2]; exact normalizeKey_no_space kv.1
  · exact h q v hq

/-- The step `insertEx` preserves the invariant that stored keys contain no
space. -/
theorem insertEx_no_space (m : AggEx) (kv : String × List String)
    (h : ∀ q v, m q = some v → ' ' ∉ q.data) :
    ∀ q v, insertEx m kv q = some v → ' ' ∉ q.data := by
  intro q v hq
  simp only [insertEx] at hq
  split_ifs at hq with h1
  · rw [h1]; exact normalizeKey_no_space kv.1
  · exact h q v hq

/-- Any invariant preserved by `insertSimple` and true of the empty
aggregate holds of `mergeSimple`. -/
theorem mergeSimple_inv (P : Agg → Prop)
    (step : ∀ m kv, P m → P (insertSimple m kv)) (base : P (fun _ => none)) :
    ∀ (ms : List (List (String × String))), P (mergeSimple ms) := by
  intro ms
  exact foldl_inv _ P
    (fun m elem hm => foldl_inv insertSimple P (fun a b ha => step a b ha) elem m hm)
    ms _ base

/-- Any invariant preserved by `insertEx` and true of the empty
aggregate holds of `mergeEx`. -/
theorem mergeEx_inv (P : AggEx → Prop)
    (step : ∀ m kv, P m → P (insertEx m kv)) (base : P (fun _ => none)) :
    ∀ (ms : List (List (String × List String))), P (mergeEx ms) := by
  intro ms
  exact foldl_inv _ P
    (fun m elem hm => foldl_inv insertEx P (fun a b ha => step a b ha) elem m hm)
    ms _ base

/-- When every consumed index is in bounds, the projection loop
delivers exactly the handles at those indices in consumption order. -/
theorem projectIdx_eq_map {α : Type} (old : List α) (d : α) :
    ∀ (l : List Nat), (∀ i ∈ l, i < old.length) →
      projectIdx old l = some (l.map (fun i => old.getD i d)) := by
  intro l
  induction l with
  | nil => intro _; rfl
  | cons i rest ih =>
    intro hb
    have hi : i < old.length := hb i (by simp)
    have hrest : ∀ j ∈ rest, j < old.length := fun j hj => hb j (by simp [hj])
    simp only [projectIdx, List.getElem?_eq_getElem hi, ih hrest, List.map_cons]
    rw [List.getD_eq_getElem?_getD, List.getElem?_eq_getElem hi]
    rfl

/-- The projection loop completes without a panic exactly when every
consumed index is a valid index of the caller's handle list. -/
theorem projectIdx_isSome_iff {α : Type} (old : List α) :
    ∀ (l : List Nat), (projectIdx old l).isSome ↔ ∀ i ∈ l, i < old.length := by
  intro l
  induction l with
  | nil => simp [projectIdx]
  | cons i rest ih =>
    constructor
    · intro h
      intro j hj
      cases h1 : old[i]? with
      | none =>
        rw [projectIdx, h1] at h
        simp at h
      | some a =>
        have hi : i < old.length := (List.getElem?_eq_some.mp h1).1
        cases h2 : projectIdx old rest with
        | none =>
          rw [projectIdx, h1, h2] at h
          simp at h
        | some tl =>
          have hrest : ∀ j ∈ rest, j < old.length := ih.mp (by rw [h2]; rfl)
          rcases List.mem_cons.mp hj with hji | hjr
          · exact hji ▸ hi
          · exact hrest j hjr
    · intro hb
      rw [projectIdx_eq_map old (by
        cases old with
        | nil => exact absurd (hb i (by simp)) (by simp)
        | cons x _ => exact x) _ hb]
      rfl

/-- Every surviving position is a position of the internal name list. -/
theorem mem_survivors_lt (names : List String) (reach : String → Bool) :
    ∀ i ∈ survivors names reach, i < names.length := by
  intro i hi
  have := (List.mem_filter.mp hi).1
  simpa using List.mem_range.mp this

/-- The name recorded in a probe status is the examined site's name,
whatever the probe outcome. -/
theorem probeSite_name (n : String) (s : SiteConfig) (o : ProbeOutcome) :
    (probeSite n s o).name = n := by
  unfold probeSite
  match o with
  | .reqError m => rfl
  | .checked err code lat =>
    cases err with
    | none => dsimp only; split_ifs <;> rfl
    | some m => rfl

/-! ## Claims -/

/-- Claim C1, counterexample: in `GetAvailableSitesEx` the surviving
indices are appended in channel-arrival order; the arrival order
`[1, 0]` is a permutation of the surviving positions when both internal
sources are reachable, and under it the gate returns the survivors in
reversed relative order, contradicting "the handles are returned in
their original relative order, regardless of the order in which the
concurrent probes complete". -/
theorem c1_counterexample :
    [1, 0].Perm (survivors gateNamesEx (fun _ => true)) ∧
    (getAvailableSitesEx ["A", "B"] [1, 0]).1 = some ["B", "A"] ∧
    (["B", "A"] : List String) ≠ ["A", "B"] := by decide

/-- Claim C1 (amended): for every completion order (a permutation of the
surviving positions) the gate returns exactly the handles at the
surviving positions — as a multiset they are the in-original-order
projection — but their relative order is the probe completion order,
not necessarily the original order. -/
theorem c1_gate_completion_order {α : Type} (old : List α) (d : α)
    (reach : String → Bool) (arrival : List Nat)
    (hperm : arrival.Perm (survivors gateNamesEx reach))
    (hlen : gateNamesEx.length ≤ old.length) :
    (getAvailableSitesEx old arrival).1
      = some (arrival.map (fun i => old.getD i d)) ∧
    (arrival.map (fun i => old.getD i d)).Perm
      ((survivors gateNamesEx reach).map (fun i => old.getD i d)) := by
  have hb : ∀ i ∈ arrival, i < old.length := by
    intro i hi
    have h1 : i ∈ survivors gateNamesEx reach := hperm.mem_iff.mp hi
    exact lt_of_lt_of_le (mem_survivors_lt gateNamesEx reach i h1) hlen
  exact ⟨by simpa [getAvailableSitesEx] using projectIdx_eq_map old d arrival hb,
         hperm.map _⟩

/-- Claim C1 witness: the amended theorem applied to the concrete
two-handle list with both probes reachable and arrival order `[1, 0]`. -/
theorem c1_gate_completion_order_witness :
    (getAvailableSitesEx ["A", "B"] [1, 0]).1 = some ["B", "A"] := by
  have h := (c1_gate_completion_order ["A", "B"] "A" (fun _ => true) [1, 0]
    (by decide) (by decide)).1
  rw [h]
  decide

/-- Claim C2: both dispatchers reset the progress counters at the start
of the dispatch stage (done to 0, total to N) and, at the barrier exit
that the return models, the completed-count equals exactly N — each of
the N invocations incremented it exactly once whether it produced
results, empty results (`some []`), or failed (`none`). -/
theorem c2_barrier_counts
    (results : List (Option (List (String × String))))
    (resultsEx : List (Option (List (String × List String)))) (sp spEx : Spin) :
    (collectData results sp).2.done = (results.length : Int) ∧
    (collectData results sp).2.total = (results.length : Int) ∧
    (collectDataEx resultsEx spEx).2.done = (resultsEx.length : Int) ∧
    (collectDataEx resultsEx spEx).2.total = (resultsEx.length : Int) ∧
    (dispatchInit sp results.length).done = 0 ∧
    (dispatchInit sp results.length).total = (results.length : Int) := by
  refine ⟨?_, ?_, ?_, ?_, rfl, rfl⟩ <;>
    simp [collectData, collectDataEx, foldl_incrDone, dispatchInit]

/-- Claim C3: when the source gate hands back an empty live-source list,
the run reports the explicit no-available-sites outcome, the dispatcher
is never invoked (the report does not depend on the dispatch function),
and the report is never a found-aggregate with a site count. -/
theorem c3_zero_sources_short_circuit {σ γ : Type} (d1 d2 : List σ → γ) :
    searchStage ([] : List σ) d1 = SearchReport.noAvailableSites ∧
    searchStage ([] : List σ) d1 = searchStage ([] : List σ) d2 ∧
    ∀ (g : γ) (n : Nat), searchStage ([] : List σ) d1 ≠ SearchReport.found g n := by
  refine ⟨rfl, rfl, ?_⟩
  intro g n h
  simp [searchStage] at h

/-- Claim C3 witness: the theorem applied at concrete types and
dispatch functions. -/
theorem c3_zero_sources_short_circuit_witness :
    searchStage ([] : List Nat) (fun _ => (0 : Nat)) = SearchReport.noAvailableSites :=
  (c3_zero_sources_short_circuit (fun _ => (0 : Nat)) (fun _ => (1 : Nat))).1

/-- Claim C4, counterexample: the sentinel actually emitted by the
simple-tier source and filtered by `CollectData` is the string
`"no magnet"`, not `"no magnet found"`; a record valued
`"no magnet found"` is not filtered — its key stays in the aggregate
with that value, contradicting the claim as stated. -/
theorem c4_counterexample :
    (collectData [some [("k", "no magnet found")]] spin0).1 "k"
      = some "no magnet found" ∧
    getMagnet (FetchOutcome.page []) = "no magnet" := by decide

/-- Claim C4 (amended): with the sentinel string `"no magnet"` — the
value `GetMagnet` returns when a fetched page has no magnet link —
the claim holds: inserting a sentinel-valued record leaves the
simple-tier aggregate unchanged, and no aggregate value ever equals the
sentinel. -/
theorem c4_sentinel_filtering :
    (∀ (m : Agg) (k : String), insertSimple m (k, noMagnetSentinel) = m) ∧
    (∀ (results : List (Option (List (String × String)))) (sp : Spin) (k v : String),
        (collectData results sp).1 k = some v → v ≠ noMagnetSentinel) ∧
    (∀ (anchors : List (List String)),
        (∀ l ∈ anchors, l.find? (fun h => isMagnetHref h) = none) →
        getMagnet (FetchOutcome.page anchors) = noMagnetSentinel) := by
  refine ⟨?_, ?_, ?_⟩
  · intro m k
    funext q
    simp [insertSimple]
  · intro results sp k v
    have := mergeSimple_inv (fun m => ∀ q v, m q = some v → v ≠ noMagnetSentinel)
      insertSimple_no_sentinel (by intro q v h; cases h)
      (results.filterMap id)
    exact this k v
  · intro anchors hall
    have key : ∀ (l : List (List String)) (acc : String),
        (∀ x ∈ l, x.find? (fun h => isMagnetHref h) = none) →
        l.foldl (fun acc iconAnchors =>
          match iconAnchors.find? (fun h => isMagnetHref h) with
          | some h => h
          | none => acc) acc = acc := by
      intro l
      induction l with
      | nil => intro acc _; rfl
      | cons x rest ih =>
        intro acc hx
        have h1 : x.find? (fun h => isMagnetHref h) = none := hx x (by simp)
        have h2 : ∀ y ∈ rest, y.find? (fun h => isMagnetHref h) = none :=
          fun y hy => hx y (by simp [hy])
        simp only [List.foldl_cons, h1]
        exact ih acc h2
    simp only [getMagnet, key anchors "" hall]
    rfl

/-- Claim C4 witness: the amended theorem applied at a concrete
non-sentinel record and at a concrete page without magnet links. -/
theorem c4_sentinel_filtering_witness :
    ((collectData [some [("b", "x")]] spin0).1 "b" = some "x" ∧
      "x" ≠ noMagnetSentinel) ∧
    getMagnet (FetchOutcome.page [["https://a"]]) = noMagnetSentinel :=
  ⟨⟨by decide,
    c4_sentinel_filtering.2.1 [some [("b", "x")]] spin0 "b" "x" (by decide)⟩,
   c4_sentinel_filtering.2.2 [["https://a"]] (by decide)⟩

/-- Claim C5, counterexample: only the space character is replaced by
the merge normalisation — a tab survives into the aggregate key, so
aggregate keys may contain whitespace; and a run of two spaces becomes
two underscores, not one placeholder character. -/
theorem c5_counterexample :
    (collectData [some [("a\tb", "m")]] spin0).1 "a\tb" = some "m" ∧
    '\t' ∈ "a\tb".data ∧ Char.isWhitespace '\t' = true ∧
    (collectDataEx [some [("c  d", ["x"])]] spin0).1 "c__d" = some ["x"] ∧
    (collectDataEx [some [("c  d", ["x"])]] spin0).1 "c_d" = none := by decide

/-- Claim C5 (amended): every key is normalised before insertion by
replacing each space character (individually) with an underscore;
consequently no key present in either aggregate contains a space
character.  Non-space whitespace is preserved. -/
theorem c5_space_normalization :
    (∀ k : String, (normalizeKey k).data = k.data.map underscoreSpace) ∧
    (∀ (results : List (Option (List (String × String)))) (sp : Spin) (k v : String),
        (collectData results sp).1 k = some v → ' ' ∉ k.data) ∧
    (∀ (resultsEx : List (Option (List (String × List String)))) (spEx : Spin)
        (k : String) (v : List String),
        (collectDataEx resultsEx spEx).1 k = some v → ' ' ∉ k.data) := by
  refine ⟨fun k => rfl, ?_, ?_⟩
  · intro results sp k v
    have := mergeSimple_inv (fun m => ∀ q v, m q = some v → ' ' ∉ q.data)
      insertSimple_no_space (by intro q v h; cases h)
      (results.filterMap id)
    exact this k v
  · intro resultsEx spEx k v
    have := mergeEx_inv (fun m => ∀ q v, m q = some v → ' ' ∉ q.data)
      insertEx_no_space (by intro q v h; cases h)
      (resultsEx.filterMap id)
    exact this k v

/-- Claim C5 witness: the amended theorem applied at concrete merged
records whose keys were normalised from `"a b"`. -/
theorem c5_space_normalization_witness :
    ((collectData [some [("a b", "m")]] spin0).1 "a_b" = some "m" ∧
      ' ' ∉ "a_b".data) ∧
    ((collectDataEx [some [("a b", ["m"])]] spin0).1 "a_b" = some ["m"] ∧
      ' ' ∉ "a_b".data) :=
  ⟨⟨by decide,
    c5_space_normalization.2.1 [some [("a b", "m")]] spin0 "a_b" "m" (by decide)⟩,
   ⟨by decide,
    c5_space_normalization.2.2 [some [("a b", ["m"])]] spin0 "a_b" ["m"] (by decide)⟩⟩

/-- Claim C6: before any task completes the rendered status line carries
no ETA, and once at least one task has completed with a positive total
the displayed ETA is `(elapsed / completed) * (total - completed)`. -/
theorem c6_eta_rendering (frame msg : String) (total done : Int) (elapsed : Nat) :
    (done = 0 → etaOf (render frame msg total done elapsed) = none) ∧
    (0 < total → 0 < done →
      etaOf (render frame msg total done elapsed)
        = some (((elapsed : Int) / done) * (total - done))) := by
  constructor
  · intro h0
    unfold render
    split_ifs with h1 h2
    · exact absurd h1.2 (by omega)
    · rfl
    · rfl
  · intro ht hd
    unfold render
    rw [if_pos ⟨ht, hd⟩]
    simp only [etaOf, Option.some.injEq]
    exact mul_comm _ _

/-- Claim C6 witness: with total=5, done=1, elapsed=10 the ETA is 40;
with done=0 no ETA is rendered. -/
theorem c6_eta_rendering_witness :
    etaOf (render "f" "Searching" 5 1 10) = some 40 ∧
    etaOf (render "f" "Searching" 5 0 10) = none := by
  constructor
  · have h := (c6_eta_rendering "f" "Searching" 5 1 10).2 (by decide) (by decide)
    rw [h]
    decide
  · exact (c6_eta_rendering "f" "Searching" 5 0 10).1 rfl

/-- Claim C7: the prober produces exactly one status per examined source
(one per configured source matching the language filter), whatever each
probe's outcome; the statuses' names are exactly the examined sources'
names and none is dropped. -/
theorem c7_doctor_one_status_each
    (sites : List (String × SiteConfig)) (language : String)
    (outcome : String → ProbeOutcome) :
    (doctorLoop sites language outcome).map SiteStatus.name
      = (sites.filter (fun p => matchesLang language p.2)).map Prod.fst ∧
    (doctorLoop sites language outcome).length
      = (sites.filter (fun p => matchesLang language p.2)).length := by
  have key : (doctorLoop sites language outcome).map SiteStatus.name
      = (sites.filter (fun p => matchesLang language p.2)).map Prod.fst := by
    induction sites with
    | nil => rfl
    | cons p rest ih =>
      obtain ⟨n, s⟩ := p
      by_cases hc : language ≠ "" ∧ s.language ≠ language
      · have hm : matchesLang language s = false := by
          simp only [matchesLang, Bool.or_eq_false_iff, decide_eq_false_iff_not]
          exact ⟨hc.1, hc.2⟩
        simp [doctorLoop, hc, List.filter_cons, hm, ih]
      · have hm : matchesLang language s = true := by
          simp only [matchesLang, Bool.or_eq_true, decide_eq_true_eq]
          rcases not_and_or.mp hc with h | h
          · exact Or.inl (not_not.mp h)
          · exact Or.inr (not_not.mp h)
        simp [doctorLoop, hc, List.filter_cons, hm, ih, probeSite_name]
  refine ⟨key, ?_⟩
  have h := congrArg List.length key
  simpa using h

/-- Claim C8: whenever the reachability check was actually issued
(`client.Do` ran — success, transport error, timeout, or non-success
status code), the status records the measured elapsed latency. -/
theorem c8_latency_recorded (n : String) (s : SiteConfig) (err : Option String)
    (code : Nat) (lat : Int) :
    (probeSite n s (ProbeOutcome.checked err code lat)).latency = lat := by
  unfold probeSite
  cases err with
  | none => dsimp only; split_ifs <;> rfl
  | some m => rfl

/-- Claim C9: the gates probe fixed internal name lists of lengths 1 and
2 and index the caller's handle list with the surviving positions; every
completion order avoids an out-of-bounds access for every reachability
outcome exactly when the caller's list is at least as long as the
internal list. -/
theorem c9_gate_index_bounds {α : Type} (old : List α) :
    (gateNames.length = 1 ∧ gateNamesEx.length = 2) ∧
    ((∀ (reach : String → Bool) (arrival : List Nat),
        arrival.Perm (survivors gateNames reach) →
        ((getAvailableSites old arrival).1).isSome) ↔ 1 ≤ old.length) ∧
    ((∀ (reach : String → Bool) (arrival : List Nat),
        arrival.Perm (survivors gateNamesEx reach) →
        ((getAvailableSitesEx old arrival).1).isSome) ↔ 2 ≤ old.length) := by
  refine ⟨⟨rfl, rfl⟩, ?_, ?_⟩
  · constructor
    · intro h
      have h0 := h (fun _ => true) (survivors gateNames (fun _ => true))
        (List.Perm.refl _)
      have h1 : (0 : Nat) ∈ survivors gateNames (fun _ => true) := by decide
      have h2 := (projectIdx_isSome_iff old _).mp
        (by simpa [getAvailableSites] using h0) 0 h1
      omega
    · intro h reach arrival hperm
      have hb : ∀ i ∈ arrival, i < old.length := by
        intro i hi
        have h1 : i ∈ survivors gateNames reach := hperm.mem_iff.mp hi
        have h2 := mem_survivors_lt gateNames reach i h1
        simp only [gateNames, List.length_cons, List.length_nil] at h2
        omega
      simpa [getAvailableSites] using (projectIdx_isSome_iff old arrival).mpr hb
  · constructor
    · intro h
      have h0 := h (fun _ => true) (survivors gateNamesEx (fun _ => true))
        (List.Perm.refl _)
      have h1 : (1 : Nat) ∈ survivors gateNamesEx (fun _ => true) := by decide
      have h2 := (projectIdx_isSome_iff old _).mp
        (by simpa [getAvailableSitesEx] using h0) 1 h1
      omega
    · intro h reach arrival hperm
      have hb : ∀ i ∈ arrival, i < old.length := by
        intro i hi
        have h1 : i ∈ survivors gateNamesEx reach := hperm.mem_iff.mp hi
        have h2 := mem_survivors_lt gateNamesEx reach i h1
        simp only [gateNamesEx, List.length_cons, List.length_nil] at h2
        omega
      simpa [getAvailableSitesEx] using (projectIdx_isSome_iff old arrival).mpr hb

/-- Claim C9 witness: the theorem applied to a two-handle caller list,
with both internal `GetAvailableSitesEx` sources reachable and arrival
order `[1, 0]`, yields an in-bounds projection. -/
theorem c9_gate_index_bounds_witness :
    ((getAvailableSitesEx (["A", "B"] : List String) [1, 0]).1).isSome := by
  have h := ((c9_gate_index_bounds (["A", "B"] : List String)).2.2).mpr (by decide)
  exact h (fun _ => true) [1, 0] (by decide)

/-- Claim C10: `Stop` and `StopWithMessage` both close the spinner's
stop channel; on a fresh spinner the first stop invocation succeeds and
any second invocation of either variant panics with a close of an
already-closed channel, whatever follows. -/
theorem c10_stop_not_idempotent (op1 op2 : StopOp) (rest : List StopOp) :
    runStop op1 false = Except.ok true ∧
    runStops (op1 :: op2 :: rest) false
      = Except.error "close of closed channel" := by
  cases op1 <;> cases op2 <;> simp [runStops, runStop, closeStop]

/-- Claim C10 witness: `Stop` followed by `StopWithMessage` on one
spinner panics at the second call. -/
theorem c10_stop_not_idempotent_witness :
    runStops [StopOp.plain, StopOp.withMessage] false
      = Except.error "close of closed channel" :=
  (c10_stop_not_idempotent StopOp.plain StopOp.withMessage []).2

end TSpider
